import Mathlib

/-!
Verification development for the walmart-importer repository.

The Python sources are shallowly embedded: pure string-processing
functions become Lean functions over `List Char` / `String`, Python
`float` values produced by parsing decimal text become the `PyFloat`
type below (a rational for finite values plus infinities and NaN), and
fallible parses return `Option`.  Regular-expression searches from the
source are embedded as hand-written scanners that follow Python `re`
semantics (leftmost match, alternation priority, greedy/lazy
quantifiers, word boundaries) for the concrete patterns appearing in
the source.
-/

set_option maxRecDepth 100000

namespace WalmartImporter

/-- Characters matched by Python's regex class `\s` / `str.isspace`
(the whitespace code points relevant here: ASCII whitespace, the C1
separators, NEL, NBSP and the Unicode space separators). -/
def isPySpace (c : Char) : Bool :=
  c.toNat = 9 || c.toNat = 10 || c.toNat = 11 || c.toNat = 12 || c.toNat = 13 ||
  c.toNat = 28 || c.toNat = 29 || c.toNat = 30 || c.toNat = 31 || c.toNat = 32 ||
  c.toNat = 133 || c.toNat = 160 || c.toNat = 0x1680 ||
  (0x2000 ≤ c.toNat && c.toNat ≤ 0x200A) ||
  c.toNat = 0x2028 || c.toNat = 0x2029 || c.toNat = 0x202F || c.toNat = 0x205F ||
  c.toNat = 0x3000

def isAsciiDigit (c : Char) : Bool := 48 ≤ c.toNat && c.toNat ≤ 57

def isAsciiLetter (c : Char) : Bool :=
  (97 ≤ c.toNat && c.toNat ≤ 122) || (65 ≤ c.toNat && c.toNat ≤ 90)

/-- Latin-1 letters `À`–`ÿ` excluding `×` and `÷` (word characters for
Python's Unicode `\w` in the range the source's patterns care about). -/
def isLatin1Letter (c : Char) : Bool :=
  (0xC0 ≤ c.toNat && c.toNat ≤ 0xFF) && c.toNat ≠ 0xD7 && c.toNat ≠ 0xF7

/-- Python regex `\w` on the character range exercised by this
repository: ASCII alphanumerics, underscore, and Latin-1 letters. -/
def isWordChar (c : Char) : Bool :=
  isAsciiLetter c || isAsciiDigit c || c = '_' || isLatin1Letter c

/-- ASCII lower-casing, used for case-insensitive matching of the
source's ASCII regex literals. -/
def lcChar (c : Char) : Char :=
  if 65 ≤ c.toNat && c.toNat ≤ 90 then Char.ofNat (c.toNat + 32) else c

/-- `str.lower()` restricted to ASCII and Latin-1 (`À`–`Þ` lower to
`à`–`þ`; `×` is not a letter and is left alone). -/
def pyLowerChar (c : Char) : Char :=
  if 65 ≤ c.toNat && c.toNat ≤ 90 then Char.ofNat (c.toNat + 32)
  else if 0xC0 ≤ c.toNat && c.toNat ≤ 0xDE && c.toNat ≠ 0xD7 then Char.ofNat (c.toNat + 32)
  else c

def pyLower (s : List Char) : List Char := s.map pyLowerChar

/-- `str.strip()` with no argument: trim `isPySpace` characters from
both ends. -/
def pyStrip (s : List Char) : List Char :=
  ((s.dropWhile isPySpace).reverse.dropWhile isPySpace).reverse

def pyStripStr (s : String) : String := String.mk (pyStrip s.data)

/-- A Python `float` as produced by numeric text parsing: a finite
rational, a signed infinity, or NaN. -/
inductive PyFloat where
  | finite (q : ℚ)
  | inf (pos : Bool)
  | nan
deriving DecidableEq, Repr

/-- Python unary minus on floats. -/
def PyFloat.neg : PyFloat → PyFloat
  | .finite q => .finite (-q)
  | .inf b => .inf (!b)
  | .nan => .nan

/-- Python `abs` on floats. -/
def PyFloat.pyAbs : PyFloat → PyFloat
  | .finite q => .finite |q|
  | .inf _ => .inf true
  | .nan => .nan

/-- Whether a `PyFloat` is a finite number. -/
def PyFloat.isFinite : PyFloat → Bool
  | .finite _ => true
  | _ => false

/-- Loop of `parseDigitPart`: consume further digits, allowing single
underscores between digits. -/
def digitLoop (v k : Nat) : List Char → Nat × Nat × List Char
  | c :: rest =>
    if isAsciiDigit c then digitLoop (10 * v + (c.toNat - 48)) (k + 1) rest
    else if c = '_' then
      match rest with
      | d :: rest2 =>
        if isAsciiDigit d then digitLoop (10 * v + (d.toNat - 48)) (k + 1) rest2
        else (v, k, c :: d :: rest2)
      | [] => (v, k, [c])
    else (v, k, c :: rest)
  | [] => (v, k, [])

/-- Digit run as accepted inside Python `float()` literals: a leading
digit, then digits with single underscores allowed between digits.
Returns the accumulated value, the count of digits consumed, and the
rest of the input. -/
def parseDigitPart : List Char → Option (Nat × Nat × List Char)
  | c :: rest =>
    if isAsciiDigit c then some (digitLoop (c.toNat - 48) 1 rest) else none
  | [] => none

/-- Optional exponent part of a Python `float()` literal applied to an
already-parsed mantissa; requires the input to be fully consumed. -/
def withExp (q : ℚ) : List Char → Option ℚ
  | [] => some q
  | e :: rest =>
    if e = 'e' || e = 'E' then
      let (negE, rest2) :=
        match rest with
        | '+' :: r => (false, r)
        | '-' :: r => (true, r)
        | r => (false, r)
      match parseDigitPart rest2 with
      | some (ev, _, rest3) =>
        if rest3 = [] then
          some (if negE then q / 10 ^ ev else q * 10 ^ ev)
        else none
      | none => none
    else none

/-- Numeric (non-keyword) body of a Python `float()` literal:
`digits [. [digits]] [exp]` or `. digits [exp]`. -/
def parseNumberBody (s : List Char) : Option ℚ :=
  match parseDigitPart s with
  | some (iv, _, r) =>
    match r with
    | '.' :: r2 =>
      match parseDigitPart r2 with
      | some (fv, fk, r3) => withExp ((iv : ℚ) + (fv : ℚ) / 10 ^ fk) r3
      | none => withExp (iv : ℚ) r2
    | _ => withExp (iv : ℚ) r
  | none =>
    match s with
    | '.' :: r2 =>
      match parseDigitPart r2 with
      | some (fv, fk, r3) => withExp ((fv : ℚ) / 10 ^ fk) r3
      | none => none
    | _ => none

/-- Case-insensitive equality of char lists (ASCII case folding). -/
def ciEq (a b : List Char) : Bool := a.map lcChar = b.map lcChar

/-- Python `float(str)` over strings with no surrounding whitespace:
optional sign, then `inf`/`infinity`/`nan` (case-insensitive) or a
numeric literal.  `none` models `ValueError`. -/
def pyFloatParse (s : List Char) : Option PyFloat :=
  let (negS, s1) :=
    match s with
    | c :: r => if c = '+' then (false, r) else if c = '-' then (true, r) else (false, c :: r)
    | [] => (false, s)
  if ciEq s1 "infinity".data || ciEq s1 "inf".data then some (.inf (!negS))
  else if ciEq s1 "nan".data then some .nan
  else
    match parseNumberBody s1 with
    | some q => some (.finite (if negS then -q else q))
    | none => none

/-- The cleaning phase of `money_to_float` (utils.py lines 26-38):
strip, remove `$`/whitespace/`,`/NBSP, unwrap one layer of
parentheses, and strip one leading minus; returns the negation flag
and the remaining characters. -/
def moneyCleaned (value : String) : Bool × List Char :=
  let c0 := pyStrip value.data
  let c1 := c0.filter fun c => !(c = '$' || isPySpace c || c = ',' || c.toNat = 160)
  let (neg1, c2) :=
    if c1.head? = some '(' && c1.getLast? = some ')' then (true, (c1.drop 1).dropLast)
    else (false, c1)
  if c2.head? = some '-' then (true, c2.tail) else (neg1, c2)

/-- utils.py `money_to_float`: convert a money string to a float;
empty input and parse failures yield `0.0`. -/
def money_to_float (value : String) : PyFloat :=
  if value = "" then .finite 0
  else
    let (neg, c) := moneyCleaned value
    match pyFloatParse c with
    | some v => if neg then v.neg else v
    | none => .finite 0

/-! ### Regex scanner machinery (parsing.py patterns) -/

/-- Case-insensitive literal match at the head of the text (ASCII
folding, as the source's patterns are ASCII); returns the rest. -/
def ciStarts : List Char → List Char → Option (List Char)
  | [], t => some t
  | p :: ps, c :: ts => if lcChar p = lcChar c then ciStarts ps ts else none
  | _ :: _, [] => none

/-- Case-sensitive literal match at the head of the text. -/
def csStarts : List Char → List Char → Option (List Char)
  | [], t => some t
  | p :: ps, c :: ts => if p = c then csStarts ps ts else none
  | _ :: _, [] => none

/-- Leftmost-match driver: try the position matcher at every suffix,
left to right, tracking the previous character for word boundaries. -/
def searchAux {α : Type} (m : Option Char → List Char → Option α) :
    Option Char → List Char → Option α
  | prev, [] => m prev []
  | prev, c :: rest =>
    match m prev (c :: rest) with
    | some r => some r
    | none => searchAux m (some c) rest

/-- `re.search` over the whole text (leftmost match wins). -/
def reSearch {α : Type} (m : Option Char → List Char → Option α) (t : List Char) : Option α :=
  searchAux m none t

def isWordOpt : Option Char → Bool
  | some c => isWordChar c
  | none => false

/-- Word boundary `\b` between the previous character and the head of
the remaining text. -/
def boundaryAt (prev : Option Char) (t : List Char) : Bool :=
  isWordOpt prev != isWordOpt t.head?

/-- Case-insensitive word followed by a trailing `\b`. -/
def wordCIThen (w : List Char) (t : List Char) : Option (List Char) :=
  match ciStarts w t with
  | some rest => if isWordOpt rest.head? then none else some rest
  | none => none

def spanDigits (t : List Char) : List Char × List Char :=
  (t.takeWhile isAsciiDigit, t.dropWhile isAsciiDigit)

/-- `\s*\$?\s*([0-9]+\.[0-9]{2})` — amount tail of RE_SUBTOTAL,
RE_TAXES and RE_TOTAL; returns the captured group. -/
def matchAmount2 (t : List Char) : Option (List Char) :=
  let t1 := t.dropWhile isPySpace
  let t2 := match t1 with | '$' :: r => r | _ => t1
  let t3 := t2.dropWhile isPySpace
  let (ds, r) := spanDigits t3
  if ds = [] then none
  else
    match r with
    | '.' :: d1 :: d2 :: _ =>
      if isAsciiDigit d1 && isAsciiDigit d2 then some (ds ++ ['.', d1, d2]) else none
    | _ => none

/-- Position matcher for `\bLABEL\b\s*\$?\s*([0-9]+\.[0-9]{2})` where
LABEL is a single word (Subtotal, Taxes, Total). -/
def labeledAmount2At (w : List Char) (prev : Option Char) (t : List Char) :
    Option (List Char) :=
  if isWordOpt prev then none
  else (wordCIThen w t).bind matchAmount2

/-- `\s*[-]?\s*\$?\s*([0-9]+(?:\.[0-9]{2})?)` — amount tail of
RE_DISCOUNT: optional minus and currency symbol, digits with zero or
exactly two decimal places. -/
def matchDiscountAmount (t : List Char) : Option (List Char) :=
  let t1 := t.dropWhile isPySpace
  let t2 := match t1 with | '-' :: r => r | _ => t1
  let t3 := t2.dropWhile isPySpace
  let t4 := match t3 with | '$' :: r => r | _ => t3
  let t5 := t4.dropWhile isPySpace
  let (ds, r) := spanDigits t5
  if ds = [] then none
  else
    match r with
    | '.' :: d1 :: d2 :: _ =>
      if isAsciiDigit d1 && isAsciiDigit d2 then some (ds ++ ['.', d1, d2]) else some ds
    | _ => some ds

/-- RE_DISCOUNT alternative `Savings`. -/
def discountTailA (t : List Char) : Option (List Char) :=
  (wordCIThen "savings".data t).bind matchDiscountAmount

/-- RE_DISCOUNT alternative `Multisave\s*Discount`. -/
def discountTailB (t : List Char) : Option (List Char) :=
  match ciStarts "multisave".data t with
  | some r1 => (wordCIThen "discount".data (r1.dropWhile isPySpace)).bind matchDiscountAmount
  | none => none

/-- RE_DISCOUNT alternative `[\w\s]*Discount` with greedy backtracking:
try the literal `Discount` from the longest `[\w\s]*` consumption down
to zero. -/
def discountTailCFrom : Nat → List Char → Option (List Char)
  | k, t =>
    match (wordCIThen "discount".data (t.drop k)).bind matchDiscountAmount with
    | some g => some g
    | none =>
      match k with
      | 0 => none
      | k' + 1 => discountTailCFrom k' t

def discountTailC (t : List Char) : Option (List Char) :=
  discountTailCFrom (t.takeWhile fun c => isWordChar c || isPySpace c).length t

/-- Position matcher for RE_DISCOUNT (parsing.py lines 46-49). -/
def discountMatchAt (prev : Option Char) (t : List Char) : Option (List Char) :=
  if boundaryAt prev t then
    match discountTailA t with
    | some g => some g
    | none =>
      match discountTailB t with
      | some g => some g
      | none => discountTailC t
  else none

/-- `\$?\s*([0-9]+\.[0-9]{2})` tried at one offset of the lazy `.*?`
of RE_DELIVERY. -/
def amountTailAt (t : List Char) : Option (List Char) :=
  let t1 := match t with | '$' :: r => r | _ => t
  let t2 := t1.dropWhile isPySpace
  let (ds, r) := spanDigits t2
  if ds = [] then none
  else
    match r with
    | '.' :: d1 :: d2 :: _ =>
      if isAsciiDigit d1 && isAsciiDigit d2 then some (ds ++ ['.', d1, d2]) else none
    | _ => none

/-- Lazy `.*?\$?\s*([0-9]+\.[0-9]{2})` (DOTALL): first offset at which
the amount tail matches. -/
def scanAmountLazy : List Char → Option (List Char)
  | [] => none
  | c :: rest =>
    match amountTailAt (c :: rest) with
    | some g => some g
    | none => scanAmountLazy rest

/-- RE_DELIVERY alternative `LABEL(?:\s*fee)?` (LABEL is Delivery or
Shipping) with trailing `\b` and the lazy amount scan; the greedy
optional `fee` variant is tried first. -/
def deliveryLabelThen (w : List Char) (t : List Char) : Option (List Char) :=
  match ciStarts w t with
  | some r1 =>
    let withFee :=
      match ciStarts "fee".data (r1.dropWhile isPySpace) with
      | some r3 => if isWordOpt r3.head? then none else scanAmountLazy r3
      | none => none
    match withFee with
    | some g => some g
    | none => if isWordOpt r1.head? then none else scanAmountLazy r1
  | none => none

/-- RE_DELIVERY alternative `Free Delivery From Store`. -/
def deliveryFreeThen (t : List Char) : Option (List Char) :=
  match ciStarts "free delivery from store".data t with
  | some r => if isWordOpt r.head? then none else scanAmountLazy r
  | none => none

/-- Position matcher for RE_DELIVERY (parsing.py lines 52-55). -/
def deliveryMatchAt (prev : Option Char) (t : List Char) : Option (List Char) :=
  if isWordOpt prev then none
  else
    match deliveryLabelThen "delivery".data t with
    | some g => some g
    | none =>
      match deliveryLabelThen "shipping".data t with
      | some g => some g
      | none => deliveryFreeThen t

/-- Position matcher for RE_ENDING_IN `Ending in\s*(\d{4})`. -/
def endingInAt (t : List Char) : Option (List Char) :=
  match ciStarts "ending in".data t with
  | some r =>
    let r2 := r.dropWhile isPySpace
    match r2 with
    | d1 :: d2 :: d3 :: d4 :: _ =>
      if isAsciiDigit d1 && isAsciiDigit d2 && isAsciiDigit d3 && isAsciiDigit d4 then
        some [d1, d2, d3, d4]
      else none
    | _ => none
  | none => none

/-- Case-insensitive substring index (`text.lower().find(sub)`). -/
def findCISub (pat : List Char) : List Char → Option Nat
  | [] => if pat = [] then some 0 else none
  | c :: rest =>
    if (ciStarts pat (c :: rest)).isSome then some 0
    else
      match findCISub pat rest with
      | some i => some (i + 1)
      | none => none

/-! ### Payment brand patterns -/

def ciStartsLen (w : List Char) (t : List Char) : Option Nat :=
  (ciStarts w t).map fun _ => w.length

/-- `W1\s*W2` returning the consumed length. -/
def brandSeqWS (w1 w2 : List Char) (t : List Char) : Option Nat :=
  match ciStarts w1 t with
  | some r1 =>
    let sp := r1.takeWhile isPySpace
    match ciStarts w2 (r1.dropWhile isPySpace) with
    | some _ => some (w1.length + sp.length + w2.length)
    | none => none
  | none => none

/-- `W1\s*W2\s*W3` returning the consumed length. -/
def brandSeqWS3 (w1 w2 w3 : List Char) (t : List Char) : Option Nat :=
  match ciStarts w1 t with
  | some r1 =>
    let sp := r1.takeWhile isPySpace
    match brandSeqWS w2 w3 (r1.dropWhile isPySpace) with
    | some n => some (w1.length + sp.length + n)
    | none => none
  | none => none

def orElseLen (a b : List Char → Option Nat) (t : List Char) : Option Nat :=
  match a t with
  | some n => some n
  | none => b t

/-- The PAYMENT_BRANDS pattern list (parsing.py lines 60-71), each as
a position matcher returning the length of `group(0)`. -/
def brandMatchers : List (List Char → Option Nat) :=
  [ brandSeqWS "apple".data "pay".data
  , brandSeqWS "google".data "pay".data
  , ciStartsLen "paypal".data
  , ciStartsLen "visa".data
  , orElseLen (brandSeqWS "master".data "card".data) (ciStartsLen "mastercard".data)
  , orElseLen (brandSeqWS "american".data "express".data) (ciStartsLen "amex".data)
  , ciStartsLen "discover".data
  , orElseLen (brandSeqWS "debit".data "card".data) (ciStartsLen "debit".data)
  , brandSeqWS "credit".data "card".data
  , orElseLen (brandSeqWS "gift".data "card".data)
      (brandSeqWS3 "walmart".data "gift".data "card".data) ]

/-- Leftmost search of a length-returning position matcher; returns
`group(0)` (original casing preserved). -/
def searchLen (m : List Char → Option Nat) : List Char → Option (List Char)
  | [] => none
  | c :: rest =>
    match m (c :: rest) with
    | some n => some ((c :: rest).take n)
    | none => searchLen m rest

/-- First pattern in the list with a search match (pattern priority
over position, mirroring the `for pat in PAYMENT_BRANDS` loop). -/
def firstSome : List (List Char → Option Nat) → List Char → Option (List Char)
  | [], _ => none
  | m :: ms, w =>
    match searchLen m w with
    | some g => some g
    | none => firstSome ms w

/-- Collapse runs of characters satisfying `p` to a single space
(`re.sub(pattern_for_p, " ", ·)`); the flag tracks a pending run. -/
def collapseRunsAux (p : Char → Bool) : Bool → List Char → List Char
  | true, [] => [' ']
  | false, [] => []
  | pend, c :: rest =>
    if p c then collapseRunsAux p true rest
    else if pend then ' ' :: c :: collapseRunsAux p false rest
    else c :: collapseRunsAux p false rest

/-- parsing.py line 103: `re.sub(r"[ \t]+", " ", text)`. -/
def collapseHT (s : List Char) : List Char :=
  collapseRunsAux (fun c => c = ' ' || c = '\t') false s

/-- `re.sub(r"\s+", " ", ·)` applied to a brand match. -/
def collapsePS (s : List Char) : List Char :=
  collapseRunsAux isPySpace false s

/-- Python `str.replace`: replace all non-overlapping occurrences,
left to right (fuel-driven for structural recursion). -/
def replaceAllAux (sub repl : List Char) : Nat → List Char → List Char
  | 0, _ => []
  | _ + 1, [] => []
  | f + 1, c :: rest =>
    match csStarts sub (c :: rest) with
    | some r => repl ++ replaceAllAux sub repl f r
    | none => c :: replaceAllAux sub repl f rest

def replaceAll (sub repl t : List Char) : List Char :=
  replaceAllAux sub repl (t.length + 1) t

/-! ### Name and date patterns -/

/-- Character class `[A-Za-zÀ-ÖØ-öø-ÿ' -]` of RE_ADDRESS_NAME_LINE. -/
def isNameClassChar (c : Char) : Bool :=
  isAsciiLetter c || isLatin1Letter c || c = '\'' || c = ' ' || c = '-'

/-- Greedy `(?:\s+[A-Z][class]{1,})*` loop of RE_ADDRESS_NAME_LINE;
returns the number of further characters consumed. -/
def nameLoop : Nat → List Char → Nat
  | 0, _ => 0
  | f + 1, t =>
    let sp := t.takeWhile isPySpace
    if sp = [] then 0
    else
      match t.drop sp.length with
      | c :: r2 =>
        if isAsciiLetter c then
          let run := r2.takeWhile isNameClassChar
          if run = [] then 0
          else sp.length + 1 + run.length + nameLoop f (r2.drop run.length)
        else 0
      | [] => 0

/-- Position matcher for RE_ADDRESS_NAME_LINE (parsing.py lines
74-77); returns `group(1)`. -/
def nameGroupAt (t : List Char) : Option (List Char) :=
  match ciStarts "address".data t with
  | some r1 =>
    let sp := r1.takeWhile isPySpace
    if sp = [] then none
    else
      match r1.drop sp.length with
      | c :: r3 =>
        if isAsciiLetter c then
          let run := r3.takeWhile isNameClassChar
          if run = [] then none
          else
            let after := r3.drop run.length
            some (c :: run ++ after.take (nameLoop after.length after))
        else none
      | [] => none
  | none => none

/-- `str.split()` with no argument: split on whitespace runs,
dropping empty pieces. -/
def pySplitWSAux (cur : List Char) : List Char → List (List Char)
  | [] => if cur = [] then [] else [cur.reverse]
  | c :: rest =>
    if isPySpace c then
      if cur = [] then pySplitWSAux [] rest
      else cur.reverse :: pySplitWSAux [] rest
    else pySplitWSAux (c :: cur) rest

def pySplitWS (s : List Char) : List (List Char) := pySplitWSAux [] s

/-- Token filter `re.match(r"^[A-Za-zÀ-ÖØ-öø-ÿ'-]+$", t)` of the name
extraction. -/
def isNameToken (t : List Char) : Bool :=
  !t.isEmpty && t.all fun c => isAsciiLetter c || isLatin1Letter c || c = '\'' || c = '-'

/-- Position matcher for RE_DATE_DELIVERED
`Delivered on\s+([A-Za-z]{3,9}\s+\d{1,2})`. -/
def dateDeliveredAt (t : List Char) : Option (List Char) :=
  match ciStarts "delivered on".data t with
  | some r1 =>
    let sp := r1.takeWhile isPySpace
    if sp = [] then none
    else
      let r2 := r1.drop sp.length
      let letters := r2.takeWhile isAsciiLetter
      if 3 ≤ letters.length && letters.length ≤ 9 then
        let r3 := r2.drop letters.length
        let sp2 := r3.takeWhile isPySpace
        if sp2 = [] then none
        else
          let ds := (r3.drop sp2.length).takeWhile isAsciiDigit
          if ds = [] then none else some (letters ++ sp2 ++ ds.take 2)
      else none
  | none => none

/-- Lazy `.*?\bOrder#\b` (DOTALL) scan: does a word-bounded `Order#`
(case-insensitive) occur from here on?  The `\b` after `#` holds when
the next character is a word character. -/
def orderHashFrom : Option Char → List Char → Bool
  | _, [] => false
  | prev, c :: rest =>
    (if !isWordOpt prev then
      match ciStarts "order#".data (c :: rest) with
      | some r => isWordOpt r.head?
      | none => false
    else false)
    || orderHashFrom (some c) rest

/-- Position matcher for RE_DATE_HEADER
`\b([A-Z][a-z]{2}\s+\d{1,2},\s+\d{4})\b.*?\bOrder#\b` (IGNORECASE,
DOTALL); returns `group(1)`. -/
def dateHeaderAt (prev : Option Char) (t : List Char) : Option (List Char) :=
  if isWordOpt prev then none
  else
    match t with
    | l1 :: l2 :: l3 :: r1 =>
      if isAsciiLetter l1 && isAsciiLetter l2 && isAsciiLetter l3 then
        let sp1 := r1.takeWhile isPySpace
        if sp1 = [] then none
        else
          let r2 := r1.drop sp1.length
          let ds := r2.takeWhile isAsciiDigit
          if ds.length = 1 || ds.length = 2 then
            match r2.drop ds.length with
            | ',' :: r3 =>
              let sp2 := r3.takeWhile isPySpace
              if sp2 = [] then none
              else
                match r3.drop sp2.length with
                | y1 :: y2 :: y3 :: y4 :: r5 =>
                  if isAsciiDigit y1 && isAsciiDigit y2 && isAsciiDigit y3 && isAsciiDigit y4
                      && !isWordOpt r5.head? && orderHashFrom (some y4) r5 then
                    some (l1 :: l2 :: l3 :: (sp1 ++ ds ++ [','] ++ sp2 ++ [y1, y2, y3, y4]))
                  else none
                | _ => none
            | _ => none
          else none
      else none
    | _ => none

/-- Position matcher for RE_HEADER_SIMPLE
`\b([A-Z][a-z]{2})\s+(\d{1,2}),\s*(\d{4})\b` (case-sensitive);
returns `group(3)`, the year. -/
def headerSimpleAt (prev : Option Char) (t : List Char) : Option (List Char) :=
  if isWordOpt prev then none
  else
    match t with
    | l1 :: l2 :: l3 :: r1 =>
      if (65 ≤ l1.toNat && l1.toNat ≤ 90) && (97 ≤ l2.toNat && l2.toNat ≤ 122)
          && (97 ≤ l3.toNat && l3.toNat ≤ 122) then
        let sp1 := r1.takeWhile isPySpace
        if sp1 = [] then none
        else
          let r2 := r1.drop sp1.length
          let ds := r2.takeWhile isAsciiDigit
          if ds.length = 1 || ds.length = 2 then
            match r2.drop ds.length with
            | ',' :: r3 =>
              match r3.dropWhile isPySpace with
              | y1 :: y2 :: y3 :: y4 :: r5 =>
                if isAsciiDigit y1 && isAsciiDigit y2 && isAsciiDigit y3 && isAsciiDigit y4
                    && !isWordOpt r5.head? then
                  some [y1, y2, y3, y4]
                else none
              | _ => none
            | _ => none
          else none
      else none
    | _ => none

/-! ### Field extraction (parse_order_page) -/

/-- Date extraction block (parsing.py lines 105-121). -/
def dateOf (tn : List Char) : String :=
  let d1 :=
    match reSearch (fun _ t => dateDeliveredAt t) tn with
    | some g => String.mk (pyStrip g)
    | none =>
      match reSearch dateHeaderAt tn with
      | some g => String.mk (pyStrip g)
      | none => ""
  if d1 ≠ "" && !d1.data.contains ',' then
    match reSearch headerSimpleAt tn with
    | some year =>
      match pySplitWS d1.data with
      | p0 :: p1 :: _ => String.mk (p0 ++ [' '] ++ p1 ++ [',', ' '] ++ year)
      | _ => d1
    | none => d1
  else d1

/-- Payment search window (parsing.py lines 127-128): 500 characters
after the first case-insensitive `payment method`, or the whole text. -/
def paymentWindow (tn : List Char) : List Char :=
  match findCISub "payment method".data tn with
  | some i => (tn.drop i).take 500
  | none => tn

/-- Brand extraction loop (parsing.py lines 130-135). -/
def brandOf (tn : List Char) : Option String :=
  match firstSome brandMatchers (paymentWindow tn) with
  | some g0 =>
    let b1 := pyStrip (collapsePS g0)
    let b2 := replaceAll "Master Card".data "Mastercard".data b1
    some (String.mk (replaceAll "American Express".data "Amex".data b2))
  | none => none

/-- Last-4 extraction (parsing.py line 137): the window first, the
whole text as fallback. -/
def last4Of (tn : List Char) : Option (List Char) :=
  match reSearch (fun _ t => endingInAt t) (paymentWindow tn) with
  | some g => some g
  | none => reSearch (fun _ t => endingInAt t) tn

/-- Payment display formatting (parsing.py lines 184-189). -/
def displayOf (tn : List Char) : String :=
  match brandOf tn, last4Of tn with
  | some _, some d => String.mk ('*' :: '*' :: '*' :: '*' :: d)
  | none, some d => String.mk ('*' :: '*' :: '*' :: '*' :: d)
  | _, none => "N/A"

/-- Customer name extraction (parsing.py lines 142-148). -/
def nameOf (tn : List Char) : String :=
  match reSearch (fun _ t => nameGroupAt t) tn with
  | some g =>
    match (pySplitWS (pyStrip g)).filter isNameToken with
    | t0 :: _ => String.mk t0
    | [] => ""
  | none => ""

def subtotalOf (tn : List Char) : PyFloat :=
  match reSearch (labeledAmount2At "subtotal".data) tn with
  | some g => money_to_float (String.mk g)
  | none => .finite 0

/-- Discount extraction (parsing.py lines 159-164): the matched
magnitude is always stored negated. -/
def discountOf (tn : List Char) : PyFloat :=
  match reSearch discountMatchAt tn with
  | some g => ((money_to_float (String.mk g)).pyAbs).neg
  | none => .finite 0

/-- Delivery extraction (parsing.py lines 167-171): defaults to 0. -/
def deliveryOf (tn : List Char) : PyFloat :=
  match reSearch deliveryMatchAt tn with
  | some g => money_to_float (String.mk g)
  | none => .finite 0

def taxesOf (tn : List Char) : PyFloat :=
  match reSearch (labeledAmount2At "taxes".data) tn with
  | some g => money_to_float (String.mk g)
  | none => .finite 0

def totalOf (tn : List Char) : PyFloat :=
  match reSearch (labeledAmount2At "total".data) tn with
  | some g => money_to_float (String.mk g)
  | none => .finite 0

structure OrderItem where
  title : String
  qty : Int
  price_each : PyFloat
deriving DecidableEq, Repr

structure OrderSummary where
  order_no : String
  url : String
  date_str : String
  payment_last4 : String
  name : String
  subtotal : PyFloat
  discount : PyFloat
  delivery : PyFloat
  taxes : PyFloat
  total : PyFloat
  items : List OrderItem
deriving DecidableEq, Repr

/-- parsing.py `parse_order_page`, taking the page's flattened visible
text (the output of the out-of-scope `BeautifulSoup.get_text` HTML
flattening step, which the spec's contract calls `flattenedText`).
Line 103 collapses runs of horizontal whitespace; all field blocks
operate on the collapsed text. -/
def parse_order_page (text : String) (order_no : String) (url : String) : OrderSummary :=
  let tn := collapseHT text.data
  { order_no := order_no
    url := url
    date_str := dateOf tn
    payment_last4 := displayOf tn
    name := nameOf tn
    subtotal := subtotalOf tn
    discount := discountOf tn
    delivery := deliveryOf tn
    taxes := taxesOf tn
    total := totalOf tn
    items := [] }

/-! ### outlook_fetcher.py: decoding, safelink unwrapping, order
number extraction, period parsing -/

def hexVal (c : Char) : Option Nat :=
  if 48 ≤ c.toNat && c.toNat ≤ 57 then some (c.toNat - 48)
  else if 97 ≤ c.toNat && c.toNat ≤ 102 then some (c.toNat - 87)
  else if 65 ≤ c.toNat && c.toNat ≤ 70 then some (c.toNat - 55)
  else none

/-- Gather a maximal run of `%XX` hex escapes into bytes. -/
def gatherBytes : List Char → List Nat × List Char
  | '%' :: h1 :: h2 :: rest =>
    match hexVal h1, hexVal h2 with
    | some a, some b =>
      let (bs, r) := gatherBytes rest
      ((16 * a + b) :: bs, r)
    | _, _ => ([], '%' :: h1 :: h2 :: rest)
  | l => ([], l)

/-- UTF-8 decoding of a byte run with replacement of invalid bytes
(CPython decodes safelink byte runs with `errors='replace'`; for the
invalid case this model emits one U+FFFD per rejected byte, which
agrees with CPython on the valid sequences the claims exercise). -/
def decodeUtf8ReplaceAux : Nat → List Nat → List Char
  | 0, _ => []
  | _ + 1, [] => []
  | f + 1, b :: rest =>
    if b < 0x80 then Char.ofNat b :: decodeUtf8ReplaceAux f rest
    else if 0xC2 ≤ b && b ≤ 0xDF then
      match rest with
      | b2 :: rest2 =>
        if 0x80 ≤ b2 && b2 ≤ 0xBF then
          Char.ofNat ((b - 0xC0) * 64 + (b2 - 0x80)) :: decodeUtf8ReplaceAux f rest2
        else Char.ofNat 0xFFFD :: decodeUtf8ReplaceAux f rest
      | [] => [Char.ofNat 0xFFFD]
    else if 0xE0 ≤ b && b ≤ 0xEF then
      match rest with
      | b2 :: b3 :: rest2 =>
        let lo2 := if b = 0xE0 then 0xA0 else 0x80
        let hi2 := if b = 0xED then 0x9F else 0xBF
        if lo2 ≤ b2 && b2 ≤ hi2 && 0x80 ≤ b3 && b3 ≤ 0xBF then
          Char.ofNat ((b - 0xE0) * 4096 + (b2 - 0x80) * 64 + (b3 - 0x80)) ::
            decodeUtf8ReplaceAux f rest2
        else Char.ofNat 0xFFFD :: decodeUtf8ReplaceAux f rest
      | _ => Char.ofNat 0xFFFD :: decodeUtf8ReplaceAux f rest
    else if 0xF0 ≤ b && b ≤ 0xF4 then
      match rest with
      | b2 :: b3 :: b4 :: rest2 =>
        let lo2 := if b = 0xF0 then 0x90 else 0x80
        let hi2 := if b = 0xF4 then 0x8F else 0xBF
        if lo2 ≤ b2 && b2 ≤ hi2 && 0x80 ≤ b3 && b3 ≤ 0xBF && 0x80 ≤ b4 && b4 ≤ 0xBF then
          Char.ofNat ((b - 0xF0) * 0x40000 + (b2 - 0x80) * 4096 + (b3 - 0x80) * 64 + (b4 - 0x80)) ::
            decodeUtf8ReplaceAux f rest2
        else Char.ofNat 0xFFFD :: decodeUtf8ReplaceAux f rest
      | _ => Char.ofNat 0xFFFD :: decodeUtf8ReplaceAux f rest
    else Char.ofNat 0xFFFD :: decodeUtf8ReplaceAux f rest

def decodeUtf8Replace (bs : List Nat) : List Char := decodeUtf8ReplaceAux (bs.length + 1) bs

/-- `urllib.parse.unquote`: decode runs of `%XX` escapes as UTF-8;
a `%` not followed by two hex digits stays literal. -/
def unquoteAux : Nat → List Char → List Char
  | 0, _ => []
  | _ + 1, [] => []
  | f + 1, c :: rest =>
    match c, rest with
    | '%', h1 :: h2 :: _ =>
      if (hexVal h1).isSome && (hexVal h2).isSome then
        let (bs, r) := gatherBytes (c :: rest)
        decodeUtf8Replace bs ++ unquoteAux f r
      else c :: unquoteAux f rest
    | _, _ => c :: unquoteAux f rest

def unquote (s : List Char) : List Char := unquoteAux (s.length + 1) s

def unquoteStr (s : String) : String := String.mk (unquote s.data)

/-- `urllib.parse.unquote_plus`: `+` becomes space, then `unquote`. -/
def unquotePlus (s : List Char) : List Char :=
  unquote (s.map fun c => if c = '+' then ' ' else c)

/-- Python `html.unescape`, modelled for numeric character references
and the common named entities (`amp`, `lt`, `gt`, `quot`, `apos`,
`nbsp`); the full named-entity table is data, not algorithm, and no
claim depends on it.  An unrecognized `&` stays literal. -/
def htmlUnescapeAux : Nat → List Char → List Char
  | 0, _ => []
  | _ + 1, [] => []
  | f + 1, c :: rest =>
    if c = '&' then
      match csStarts "#x".data rest <|> csStarts "#X".data rest with
      | some r1 =>
        let hs := r1.takeWhile fun d => (hexVal d).isSome
        match hs.foldl (fun a d => 16 * a + ((hexVal d).getD 0)) 0, r1.drop hs.length with
        | n, ';' :: r2 =>
          if hs ≠ [] && n < 0x110000 && !(0xD800 ≤ n && n ≤ 0xDFFF) then
            Char.ofNat n :: htmlUnescapeAux f r2
          else c :: htmlUnescapeAux f rest
        | _, _ => c :: htmlUnescapeAux f rest
      | none =>
        match rest with
        | '#' :: r1 =>
          let ds := r1.takeWhile isAsciiDigit
          match (ds.foldl (fun a d => 10 * a + (d.toNat - 48)) 0), r1.drop ds.length with
          | n, ';' :: r2 =>
            if ds ≠ [] && n < 0x110000 && !(0xD800 ≤ n && n ≤ 0xDFFF) then
              Char.ofNat n :: htmlUnescapeAux f r2
            else c :: htmlUnescapeAux f rest
          | _, _ => c :: htmlUnescapeAux f rest
        | _ =>
          match csStarts "amp;".data rest with
          | some r => '&' :: htmlUnescapeAux f r
          | none =>
            match csStarts "lt;".data rest with
            | some r => '<' :: htmlUnescapeAux f r
            | none =>
              match csStarts "gt;".data rest with
              | some r => '>' :: htmlUnescapeAux f r
              | none =>
                match csStarts "quot;".data rest with
                | some r => '"' :: htmlUnescapeAux f r
                | none =>
                  match csStarts "apos;".data rest with
                  | some r => '\'' :: htmlUnescapeAux f r
                  | none =>
                    match csStarts "nbsp;".data rest with
                    | some r => Char.ofNat 160 :: htmlUnescapeAux f r
                    | none => c :: htmlUnescapeAux f rest
    else c :: htmlUnescapeAux f rest

def htmlUnescape (s : String) : String :=
  String.mk (htmlUnescapeAux (s.data.length + 1) s.data)

/-- outlook_fetcher.py `_decode_candidates` (lines 147-178): original
string, HTML-unescaped form if different, then three rounds of
percent-decoding of the unescaped form, each appended only if new.
Empty input returns the empty list. -/
def _decode_candidates (s : String) : List String :=
  if s = "" then []
  else
    let v0 := [s]
    let h := htmlUnescape s
    let v1 := if h ≠ s then v0 ++ [h] else v0
    let u1 := unquoteStr h
    let v2 := if u1 ∉ v1 then v1 ++ [u1] else v1
    let u2 := unquoteStr u1
    let v3 := if u2 ∉ v2 then v2 ++ [u2] else v2
    let u3 := unquoteStr u2
    if u3 ∉ v3 then v3 ++ [u3] else v3

/-- Finditer for `https?://\S+` (case-sensitive scheme, maximal
non-whitespace run, non-overlapping, resuming after each match). -/
def urlMatchesAux : Nat → List Char → List (List Char)
  | 0, _ => []
  | _ + 1, [] => []
  | f + 1, c :: rest =>
    let tryScheme : Option (List Char × List Char) :=
      match csStarts "https://".data (c :: rest) with
      | some r => some ("https://".data, r)
      | none =>
        match csStarts "http://".data (c :: rest) with
        | some r => some ("http://".data, r)
        | none => none
    match tryScheme with
    | some (scheme, r) =>
      let body := r.takeWhile fun d => !isPySpace d
      if body = [] then c :: rest |>.tail |> (urlMatchesAux f)
      else (scheme ++ body) :: urlMatchesAux f (r.drop body.length)
    | none => urlMatchesAux f rest

def urlMatches (s : List Char) : List (List Char) := urlMatchesAux (s.length + 1) s

/-- The trailing characters stripped from a matched URL
(outlook_fetcher.py line 191: `rstrip("').,>\\\"]")`). -/
def isUrlTrimChar (c : Char) : Bool :=
  c = '\'' || c = ')' || c = '.' || c = ',' || c = '>' || c = '\\' || c = '"' || c = ']'

def rstripUrl (u : List Char) : List Char :=
  (u.reverse.dropWhile isUrlTrimChar).reverse

/-- `urlparse(u).netloc` for a URL beginning with a `//` authority
after the scheme colon: the characters after `//` up to the first
`/`, `?` or `#`. -/
def netlocOf (u : List Char) : List Char :=
  match csStarts "https://".data u with
  | some r => r.takeWhile fun c => !(c = '/' || c = '?' || c = '#')
  | none =>
    match csStarts "http://".data u with
    | some r => r.takeWhile fun c => !(c = '/' || c = '?' || c = '#')
    | none => []

/-- `urlparse(u).query`: after the authority and path, the part
between the first `?` and any `#`. -/
def queryOf (u : List Char) : List Char :=
  let afterNetloc :=
    match csStarts "https://".data u with
    | some r => r.dropWhile fun c => !(c = '/' || c = '?' || c = '#')
    | none =>
      match csStarts "http://".data u with
      | some r => r.dropWhile fun c => !(c = '/' || c = '?' || c = '#')
      | none => []
  let preFrag := afterNetloc.takeWhile fun c => c ≠ '#'
  match (preFrag.dropWhile fun c => c ≠ '?') with
  | '?' :: q => q
  | _ => []

/-- Case-sensitive substring containment (Python `in`). -/
def containsSub (pat : List Char) : List Char → Bool
  | [] => pat = []
  | c :: rest => (csStarts pat (c :: rest)).isSome || containsSub pat rest

/-- Split on a separator character. -/
def splitOnChar (sep : Char) (cur : List Char) : List Char → List (List Char)
  | [] => [cur.reverse]
  | c :: rest =>
    if c = sep then cur.reverse :: splitOnChar sep [] rest
    else splitOnChar sep (c :: cur) rest

/-- `parse_qs(query)` reduced to the lookups the source makes: the
pairs with an `=` and a non-blank value, keys and values decoded with
`unquote_plus` (blank values are dropped by the default
`keep_blank_values=False`). -/
def qsPairs (q : List Char) : List (List Char × List Char) :=
  (splitOnChar '&' [] q).filterMap fun p =>
    if p.contains '=' then
      let k := p.takeWhile fun c => c ≠ '='
      let v := (p.dropWhile fun c => c ≠ '=').tail
      if v ≠ [] then some (unquotePlus k, unquotePlus v) else none
    else none

/-- `parse_qs(query).get("url", [None])[0]`. -/
def qsGetUrl (q : List Char) : Option (List Char) :=
  ((qsPairs q).find? fun kv => kv.1 = "url".data).map fun kv => kv.2

def safelinkHost : List Char := "safelinks.protection.outlook.com".data

/-- What the safelink loop body emits for one matched URL: the
unwrapped, triple-percent-decoded `url` parameter for a safelink
wrapper, the trimmed URL itself otherwise. -/
def emitOne (m : List Char) : List String :=
  let url := rstripUrl m
  if containsSub safelinkHost (netlocOf url) then
    match qsGetUrl (queryOf url) with
    | some target => [String.mk (unquote (unquote (unquote target)))]
    | none => []
  else [String.mk url]

/-- outlook_fetcher.py `_extract_urls_from_safelinks` (lines 181-209),
as the source's accumulating loop over the URL matches. -/
def _extract_urls_from_safelinks (s : String) : List String :=
  if s = "" then []
  else (urlMatches s.data).foldl (fun out m => out ++ emitOne m) []

/-- An Outlook mail item as the extractor reads it: subject, HTML body
and plain-text body, each possibly absent (`None`, or an accessor
failure recovered to the empty string by the source). -/
structure MailItem where
  subject : Option String
  htmlBody : Option String
  body : Option String

/-- The accumulated candidate strings for one item (outlook_fetcher.py
lines 242-263): decoded variants of both bodies, extended with the
decoded variants of every URL extracted from them. -/
def itemCandStrings (it : MailItem) : List String :=
  let cand := _decode_candidates (it.htmlBody.getD "") ++ _decode_candidates (it.body.getD "")
  let urls := cand.flatMap fun s => _extract_urls_from_safelinks s
  cand ++ urls.flatMap _decode_candidates

/-- The subject filter (outlook_fetcher.py lines 237-238): an empty or
absent filter passes everything; otherwise compare the stripped,
lowered subject with the stripped, lowered filter. -/
def subjectMatches (it : MailItem) (subject_exact : Option String) : Bool :=
  match subject_exact with
  | none => true
  | some se =>
    se = "" || pyLower (pyStrip (it.subject.getD "").data) = pyLower (pyStrip se.data)

/-- Finditer for ORDER_RE `/orders/(\d+)` (case-insensitive): each
occurrence of the literal followed by a non-empty maximal digit run,
non-overlapping. -/
def orderMatchesAux : Nat → List Char → List String
  | 0, _ => []
  | _ + 1, [] => []
  | f + 1, c :: rest =>
    match ciStarts "/orders/".data (c :: rest) with
    | some r =>
      let (ds, r2) := spanDigits r
      if ds = [] then orderMatchesAux f rest
      else String.mk ds :: orderMatchesAux f r2
    | none => orderMatchesAux f rest

def orderMatches (s : String) : List String := orderMatchesAux (s.data.length + 1) s.data

/-- Python `sorted(list(set(...)))` on strings: sort the distinct
elements by the code-point lexicographic order. -/
def pySortedSet (l : List String) : List String :=
  List.insertionSort (fun a b => a ≤ b) l.dedup

/-- outlook_fetcher.py `extract_order_numbers_from_items` (lines
212-274): collect the order numbers of every subject-matching item's
candidate strings into a set, returned sorted. -/
def extract_order_numbers_from_items (items : List MailItem)
    (subject_exact : Option String) : List String :=
  let numbers := items.foldl (fun acc it =>
    if subjectMatches it subject_exact then
      acc ++ (itemCandStrings it).flatMap fun s => orderMatches s
    else acc) []
  pySortedSet numbers

/-! ### Period parsing (outlook_fetcher.py `_parse_period`) -/

/-- A `datetime.datetime` value as the period parser builds them. -/
structure PyDateTime where
  year : Nat
  month : Nat
  day : Nat
  hour : Nat
  minute : Nat
  second : Nat
deriving DecidableEq, Repr

def isLeapYear (y : Nat) : Bool :=
  (y % 4 = 0 && y % 100 ≠ 0) || y % 400 = 0

def daysInMonth (y m : Nat) : Nat :=
  if m = 2 then (if isLeapYear y then 29 else 28)
  else if m = 4 || m = 6 || m = 9 || m = 11 then 30
  else 31

/-- `datetime.datetime(y, m, d, 0, 0, 0)`: validates its arguments
(`ValueError`, modelled as `Except.error`, outside `MINYEAR..MAXYEAR`
or with an invalid month or day). -/
def mkDatetime (y m d : Nat) : Except Unit PyDateTime :=
  if 1 ≤ y && y ≤ 9999 && 1 ≤ m && m ≤ 12 && 1 ≤ d && d ≤ daysInMonth y m then
    .ok ⟨y, m, d, 0, 0, 0⟩
  else .error ()

/-- `re.fullmatch(r"(\d{4})-(\d{1,2})", s)`: four digits, a dash, one
or two digits consuming the whole string; returns year and month. -/
def yyyymmMatch : List Char → Option (Nat × Nat)
  | y1 :: y2 :: y3 :: y4 :: '-' :: ms =>
    if isAsciiDigit y1 && isAsciiDigit y2 && isAsciiDigit y3 && isAsciiDigit y4 then
      let y := ((y1.toNat - 48) * 10 + (y2.toNat - 48)) * 100 +
        ((y3.toNat - 48) * 10 + (y4.toNat - 48))
      match ms with
      | [m1] => if isAsciiDigit m1 then some (y, m1.toNat - 48) else none
      | [m1, m2] =>
        if isAsciiDigit m1 && isAsciiDigit m2 then
          some (y, (m1.toNat - 48) * 10 + (m2.toNat - 48))
        else none
      | _ => none
    else none
  | _ => none

/-- outlook_fetcher.py `_parse_period` (lines 87-112): strip, match
`(\d{4})-(\d{1,2})`, reject months outside 1..12, and return the
half-open month range, December rolling over to January of the next
year.  `Except.error` models an uncaught `ValueError` escaping from
the `datetime` constructor. -/
def _parse_period (period : String) : Except Unit (Option (PyDateTime × PyDateTime)) :=
  match yyyymmMatch (pyStrip period.data) with
  | none => .ok none
  | some (year, month) =>
    if !(1 ≤ month && month ≤ 12) then .ok none
    else do
      let start ← mkDatetime year month 1
      let e ←
        if month = 12 then mkDatetime (year + 1) 1 1
        else mkDatetime year (month + 1) 1
      return some (start, e)

/-! ### Helper lemmas -/

theorem searchAux_some {α : Type} {m : Option Char → List Char → Option α} {a : α} :
    ∀ {prev : Option Char} {t : List Char}, searchAux m prev t = some a →
      ∃ p t', t' <:+ t ∧ m p t' = some a := by
  intro prev t
  induction t generalizing prev with
  | nil => intro h; exact ⟨prev, [], List.suffix_refl [], h⟩
  | cons c rest ih =>
    intro h
    rw [searchAux] at h
    cases hm : m prev (c :: rest) with
    | some r => rw [hm] at h; exact ⟨prev, c :: rest, List.suffix_refl _, hm ▸ h⟩
    | none =>
      rw [hm] at h
      obtain ⟨p, t', hsuf, hmt⟩ := ih h
      exact ⟨p, t', hsuf.trans (List.suffix_cons c rest), hmt⟩

theorem reSearch_some {α : Type} {m : Option Char → List Char → Option α} {a : α}
    {t : List Char} (h : reSearch m t = some a) :
    ∃ p t', t' <:+ t ∧ m p t' = some a := searchAux_some h

theorem ciStarts_suffix : ∀ {p t r : List Char}, ciStarts p t = some r → r <:+ t := by
  intro p
  induction p with
  | nil => intro t r h; rw [ciStarts] at h; cases h; exact List.suffix_refl _
  | cons x xs ih =>
    intro t r h
    cases t with
    | nil => simp [ciStarts] at h
    | cons c ts =>
      rw [ciStarts] at h
      split at h
      · exact (ih h).trans (List.suffix_cons c ts)
      · cases h

/-- A successful case-insensitive literal match at some suffix gives a
case-insensitive substring occurrence. -/
theorem findCISub_isSome_of_suffix {pat : List Char} :
    ∀ {t t' : List Char}, t' <:+ t → (ciStarts pat t').isSome →
      (findCISub pat t).isSome := by
  intro t
  induction t with
  | nil =>
    intro t' hsuf hs
    rw [List.suffix_nil.mp hsuf] at hs
    cases hpat : ciStarts pat [] with
    | none => rw [hpat] at hs; cases hs
    | some r =>
      cases pat with
      | nil => simp [findCISub]
      | cons x xs => rw [ciStarts] at hpat; cases hpat
  | cons c rest ih =>
    intro t' hsuf hs
    rcases List.suffix_cons_iff.mp hsuf with h | h
    · subst h
      rw [findCISub, if_pos hs]
      simp
    · rw [findCISub]
      split
      · simp
      · have := ih h hs
        cases hfind : findCISub pat rest with
        | none => rw [hfind] at this; cases this
        | some i => simp [hfind]

/-- Case-insensitive substring containment. -/
def ciContains (pat t : List Char) : Bool := (findCISub pat t).isSome

/-! ### Shape of captured amount groups, and the sign of the parsed
discount -/

/-- Shape of a money group captured by the financial regexes: a
non-empty digit run, optionally followed by a dot and two digits. -/
def amountShape (g : List Char) : Prop :=
  ∃ ds, ds ≠ [] ∧ (∀ c ∈ ds, isAsciiDigit c = true) ∧
    (g = ds ∨ ∃ d1 d2, isAsciiDigit d1 = true ∧ isAsciiDigit d2 = true ∧
      g = ds ++ ['.', d1, d2])

theorem matchDiscountAmount_shape {t g : List Char}
    (h : matchDiscountAmount t = some g) : amountShape g := by
  unfold matchDiscountAmount spanDigits at h
  dsimp only at h
  split at h
  · cases h
  · next hne =>
    split at h
    · next d1 d2 tl heq =>
      split at h
      · next hdd =>
        refine ⟨_, hne, fun c hc => List.mem_takeWhile_imp hc, Or.inr ⟨d1, d2, ?_, ?_, ?_⟩⟩
        · exact (Bool.and_eq_true _ _ |>.mp hdd).1
        · exact (Bool.and_eq_true _ _ |>.mp hdd).2
        · cases h; rfl
      · cases h
        exact ⟨_, hne, fun c hc => List.mem_takeWhile_imp hc, Or.inl rfl⟩
    · cases h
      exact ⟨_, hne, fun c hc => List.mem_takeWhile_imp hc, Or.inl rfl⟩

theorem discountTailA_shape {t g : List Char} (h : discountTailA t = some g) :
    amountShape g := by
  unfold discountTailA at h
  rcases Option.bind_eq_some.mp h with ⟨r, _, hm⟩
  exact matchDiscountAmount_shape hm

theorem discountTailB_shape {t g : List Char} (h : discountTailB t = some g) :
    amountShape g := by
  unfold discountTailB at h
  split at h
  · rcases Option.bind_eq_some.mp h with ⟨r, _, hm⟩
    exact matchDiscountAmount_shape hm
  · cases h

theorem discountTailCFrom_shape :
    ∀ (k : Nat) {t g : List Char}, discountTailCFrom k t = some g → amountShape g := by
  intro k
  induction k with
  | zero =>
    intro t g h
    rw [discountTailCFrom] at h
    cases hb : (wordCIThen "discount".data (t.drop 0)).bind matchDiscountAmount with
    | some gp =>
      rw [hb] at h; cases h
      rcases Option.bind_eq_some.mp hb with ⟨r, _, hm⟩
      exact matchDiscountAmount_shape hm
    | none => rw [hb] at h; cases h
  | succ kp ih =>
    intro t g h
    rw [discountTailCFrom] at h
    cases hb : (wordCIThen "discount".data (t.drop (kp + 1))).bind matchDiscountAmount with
    | some gp =>
      rw [hb] at h; cases h
      rcases Option.bind_eq_some.mp hb with ⟨r, _, hm⟩
      exact matchDiscountAmount_shape hm
    | none => rw [hb] at h; exact ih h

theorem discountMatchAt_shape {prev : Option Char} {t g : List Char}
    (h : discountMatchAt prev t = some g) : amountShape g := by
  unfold discountMatchAt at h
  split at h
  · cases ha : discountTailA t with
    | some gp => rw [ha] at h; cases h; exact discountTailA_shape ha
    | none =>
      rw [ha] at h
      cases hb : discountTailB t with
      | some gp => rw [hb] at h; cases h; exact discountTailB_shape hb
      | none =>
        rw [hb] at h
        exact discountTailCFrom_shape _ h
  · cases h

/-! ### Evaluating `money_to_float` on a captured amount group -/

theorem dropWhile_eq_self_of {p : Char → Bool} {l : List Char}
    (h : ∀ c ∈ l, p c = false) : l.dropWhile p = l := by
  cases l with
  | nil => rfl
  | cons c rest =>
    rw [List.dropWhile_cons, h c (List.mem_cons_self c rest)]
    simp

theorem pyStrip_eq_self {l : List Char} (h : ∀ c ∈ l, isPySpace c = false) :
    pyStrip l = l := by
  unfold pyStrip
  rw [dropWhile_eq_self_of h,
    dropWhile_eq_self_of (fun c hc => h c (List.mem_reverse.mp hc)),
    List.reverse_reverse]

theorem digit_toNat {c : Char} (h : isAsciiDigit c = true) :
    48 ≤ c.toNat ∧ c.toNat ≤ 57 := by
  simpa [isAsciiDigit] using h

theorem digit_or_dot_class {c : Char} (h : isAsciiDigit c = true ∨ c = '.') :
    isPySpace c = false ∧ c ≠ '$' ∧ c ≠ ',' ∧ c.toNat ≠ 160 := by
  rcases h with h | rfl
  · obtain ⟨h1, h2⟩ := digit_toNat h
    refine ⟨?_, ?_, ?_, by omega⟩
    · simp only [isPySpace]
      simp only [Bool.or_eq_false_iff, decide_eq_false_iff_not, Bool.and_eq_false_iff,
        decide_eq_false_iff_not]
      omega
    · intro hc; rw [hc] at h1; revert h1; decide
    · intro hc; rw [hc] at h1; revert h1; decide
  · exact ⟨by decide, by decide, by decide, by decide⟩

theorem digitLoop_stop {v k : Nat} {rest : List Char}
    (hr : rest = [] ∨ ∃ rp, rest = '.' :: rp) : digitLoop v k rest = (v, k, rest) := by
  rcases hr with rfl | ⟨rp, rfl⟩
  · rfl
  · rw [digitLoop.eq_def]
    dsimp only
    rw [if_neg (by decide), if_neg (by decide)]

theorem digitLoop_append {rest : List Char} (hr : rest = [] ∨ ∃ rp, rest = '.' :: rp) :
    ∀ (ds : List Char) (v k : Nat), (∀ c ∈ ds, isAsciiDigit c = true) →
      ∃ vp kp, digitLoop v k (ds ++ rest) = (vp, kp, rest) := by
  intro ds
  induction ds with
  | nil => intro v k _; exact ⟨v, k, digitLoop_stop hr⟩
  | cons c dsp ih =>
    intro v k hd
    have hc := hd c (List.mem_cons_self c dsp)
    rw [List.cons_append, digitLoop.eq_def]
    dsimp only
    rw [if_pos hc]
    exact ih _ _ fun x hx => hd x (List.mem_cons_of_mem c hx)

theorem parseDigitPart_append (ds rest : List Char) (hne : ds ≠ [])
    (hdg : ∀ c ∈ ds, isAsciiDigit c = true)
    (hr : rest = [] ∨ ∃ rp, rest = '.' :: rp) :
    ∃ v k, parseDigitPart (ds ++ rest) = some (v, k, rest) := by
  cases ds with
  | nil => cases hne rfl
  | cons c dsp =>
    have hc := hdg c (List.mem_cons_self c dsp)
    rw [List.cons_append, parseDigitPart.eq_def]
    dsimp only
    rw [if_pos hc]
    obtain ⟨vp, kp, h⟩ :=
      digitLoop_append hr dsp (c.toNat - 48) 1 fun x hx => hdg x (List.mem_cons_of_mem c hx)
    exact ⟨vp, kp, by rw [h]⟩

theorem parseNumberBody_amountShape {g : List Char} (hs : amountShape g) :
    ∃ q : ℚ, parseNumberBody g = some q ∧ 0 ≤ q := by
  obtain ⟨ds, hne, hdg, hform⟩ := hs
  rcases hform with hgd | ⟨d1, d2, hd1, hd2, hgd⟩
  · rw [hgd]
    obtain ⟨v, k, hp⟩ := parseDigitPart_append ds [] hne hdg (Or.inl rfl)
    rw [List.append_nil] at hp
    refine ⟨(v : ℚ), ?_, by positivity⟩
    simp only [parseNumberBody, hp, withExp]
  · rw [hgd]
    obtain ⟨v, k, hp⟩ :=
      parseDigitPart_append ds ['.', d1, d2] hne hdg (Or.inr ⟨[d1, d2], rfl⟩)
    obtain ⟨v2, k2, hp2⟩ := parseDigitPart_append [d1, d2] []
      (by simp)
      (by
        intro c hc
        rcases List.mem_cons.mp hc with rfl | hc2
        · exact hd1
        · rcases List.mem_cons.mp hc2 with rfl | hc3
          · exact hd2
          · simp at hc3)
      (Or.inl rfl)
    rw [List.append_nil] at hp2
    refine ⟨(v : ℚ) + (v2 : ℚ) / 10 ^ k2, ?_, by positivity⟩
    simp only [parseNumberBody, hp, hp2, withExp]

theorem lcChar_digit {c : Char} (h : isAsciiDigit c = true) : lcChar c = c := by
  obtain ⟨h1, h2⟩ := digit_toNat h
  unfold lcChar
  rw [if_neg]
  simp only [Bool.and_eq_true, decide_eq_true_eq, not_and]
  omega

theorem ciEq_false_of_head {a b : Char} {as bs : List Char} (h : lcChar a ≠ lcChar b) :
    ciEq (a :: as) (b :: bs) = false := by
  simp only [ciEq, List.map_cons]
  apply decide_eq_false
  intro heq
  exact h (List.cons.injEq _ _ _ _ ▸ heq).1

theorem amountShape_mem {g : List Char} (hs : amountShape g) :
    ∀ c ∈ g, isAsciiDigit c = true ∨ c = '.' := by
  obtain ⟨ds, hne, hdg, hform⟩ := hs
  intro c hc
  rcases hform with hgd | ⟨d1, d2, hd1, hd2, hgd⟩
  · exact Or.inl (hdg c (hgd ▸ hc))
  · rw [hgd] at hc
    rcases List.mem_append.mp hc with hc | hc
    · exact Or.inl (hdg c hc)
    · rcases List.mem_cons.mp hc with rfl | hc2
      · exact Or.inr rfl
      · rcases List.mem_cons.mp hc2 with rfl | hc3
        · exact Or.inl hd1
        · rcases List.mem_cons.mp hc3 with rfl | hc4
          · exact Or.inl hd2
          · simp at hc4

theorem amountShape_head {g : List Char} (hs : amountShape g) :
    ∀ c, g.head? = some c → isAsciiDigit c = true := by
  obtain ⟨ds, hne, hdg, hform⟩ := hs
  obtain ⟨d0, ds', rfl⟩ := List.exists_cons_of_ne_nil hne
  intro c hc
  have hd0 := hdg d0 (List.mem_cons_self d0 ds')
  rcases hform with hgd | ⟨d1, d2, hd1, hd2, hgd⟩ <;>
    rw [hgd] at hc <;> simp only [List.cons_append, List.head?_cons] at hc <;>
    cases hc <;> exact hd0

theorem amountShape_ne_nil {g : List Char} (hs : amountShape g) : g ≠ [] := by
  obtain ⟨ds, hne, hdg, hform⟩ := hs
  obtain ⟨d0, ds', rfl⟩ := List.exists_cons_of_ne_nil hne
  rcases hform with hgd | ⟨d1, d2, hd1, hd2, hgd⟩ <;> rw [hgd] <;> simp

theorem moneyCleaned_amount {g : List Char} (hs : amountShape g) :
    moneyCleaned (String.mk g) = (false, g) := by
  have hclass := fun c hc => digit_or_dot_class (amountShape_mem hs c hc)
  have hfilter :
      (g.filter fun c => !(c = '$' || isPySpace c || c = ',' || c.toNat = 160)) = g := by
    apply List.filter_eq_self.mpr
    intro c hc
    obtain ⟨h1, h2, h3, h4⟩ := hclass c hc
    simp [h1, h2, h3, h4]
  have hstrip : pyStrip g = g := pyStrip_eq_self fun c hc => (hclass c hc).1
  obtain ⟨c0, rest, rfl⟩ := List.exists_cons_of_ne_nil (amountShape_ne_nil hs)
  have hd0 : isAsciiDigit c0 = true := amountShape_head hs c0 rfl
  have hne1 : c0 ≠ '(' := fun h => absurd (h ▸ hd0) (by decide)
  have hne2 : c0 ≠ '-' := fun h => absurd (h ▸ hd0) (by decide)
  unfold moneyCleaned
  dsimp only
  rw [hstrip, hfilter]
  simp [hne1, hne2]

theorem pyFloatParse_amountShape {g : List Char} (hs : amountShape g) :
    ∃ q : ℚ, pyFloatParse g = some (.finite q) ∧ 0 ≤ q := by
  obtain ⟨q, hparse, hq⟩ := parseNumberBody_amountShape hs
  obtain ⟨c0, rest, rfl⟩ := List.exists_cons_of_ne_nil (amountShape_ne_nil hs)
  have hd0 : isAsciiDigit c0 = true := amountShape_head hs c0 rfl
  have hlc : lcChar c0 = c0 := lcChar_digit hd0
  have hne1 : c0 ≠ '+' := fun h => absurd (h ▸ hd0) (by decide)
  have hne2 : c0 ≠ '-' := fun h => absurd (h ▸ hd0) (by decide)
  have hnei : lcChar c0 ≠ lcChar 'i' := by
    rw [hlc]
    intro h
    exact absurd (h ▸ hd0) (by decide)
  have hnen : lcChar c0 ≠ lcChar 'n' := by
    rw [hlc]
    intro h
    exact absurd (h ▸ hd0) (by decide)
  have hinf1 : ciEq (c0 :: rest) "infinity".data = false := ciEq_false_of_head hnei
  have hinf2 : ciEq (c0 :: rest) "inf".data = false := ciEq_false_of_head hnei
  have hnan : ciEq (c0 :: rest) "nan".data = false := ciEq_false_of_head hnen
  refine ⟨q, ?_, hq⟩
  unfold pyFloatParse
  dsimp only
  rw [if_neg hne1, if_neg hne2]
  rw [hinf1, hinf2, hnan]
  simp only [Bool.or_self, Bool.false_eq_true, if_false, hparse]

theorem money_amountShape {g : List Char} (hs : amountShape g) :
    ∃ q : ℚ, money_to_float (String.mk g) = .finite q ∧ 0 ≤ q := by
  obtain ⟨q, hfp, hq⟩ := pyFloatParse_amountShape hs
  refine ⟨q, ?_, hq⟩
  have hnz : String.mk g ≠ "" := fun h => amountShape_ne_nil hs (congrArg String.data h)
  unfold money_to_float
  rw [if_neg hnz]
  dsimp only
  rw [moneyCleaned_amount hs]
  dsimp only
  rw [hfp]
  rfl

/-- The discount field is always a non-positive finite value. -/
theorem discountOf_nonpos (tn : List Char) :
    ∃ q : ℚ, discountOf tn = .finite q ∧ q ≤ 0 := by
  unfold discountOf
  cases h : reSearch discountMatchAt tn with
  | none => exact ⟨0, rfl, le_refl 0⟩
  | some g =>
    obtain ⟨p, t', _, hm⟩ := reSearch_some h
    obtain ⟨q, hmf, hq⟩ := money_amountShape (discountMatchAt_shape hm)
    dsimp only
    rw [hmf]
    exact ⟨-|q|, rfl, neg_nonpos.mpr (abs_nonneg q)⟩

/-! ### Label-absence lemmas: a match implies the label occurs -/

theorem ciStarts_append {r : List Char} :
    ∀ {a b t : List Char}, ciStarts (a ++ b) t = some r →
      ∃ m, ciStarts a t = some m ∧ ciStarts b m = some r := by
  intro a
  induction a with
  | nil => intro b t h; exact ⟨t, rfl, h⟩
  | cons x xs ih =>
    intro b t h
    cases t with
    | nil => rw [List.cons_append, ciStarts] at h; cases h
    | cons c ts =>
      rw [List.cons_append, ciStarts] at h
      split at h
      · obtain ⟨m, h1, h2⟩ := ih h
        refine ⟨m, ?_, h2⟩
        rw [ciStarts]
        split
        · exact h1
        · next hne => cases hne (by assumption)
      · cases h

theorem wordCIThen_starts {w t r : List Char} (h : wordCIThen w t = some r) :
    (ciStarts w t).isSome := by
  unfold wordCIThen at h
  split at h
  · next heq => rw [heq]; rfl
  · cases h

theorem deliveryLabelThen_starts {w t g : List Char} (h : deliveryLabelThen w t = some g) :
    (ciStarts w t).isSome := by
  unfold deliveryLabelThen at h
  split at h
  · next heq => rw [heq]; rfl
  · cases h

theorem deliveryMatchAt_label {prev : Option Char} {t g : List Char}
    (h : deliveryMatchAt prev t = some g) :
    (ciStarts "delivery".data t).isSome ∨ (ciStarts "shipping".data t).isSome ∨
      (ciStarts "free delivery from store".data t).isSome := by
  unfold deliveryMatchAt at h
  split at h
  · cases h
  · cases h1 : deliveryLabelThen "delivery".data t with
    | some g1 => exact Or.inl (deliveryLabelThen_starts h1)
    | none =>
      rw [h1] at h
      cases h2 : deliveryLabelThen "shipping".data t with
      | some g2 => exact Or.inr (Or.inl (deliveryLabelThen_starts h2))
      | none =>
        rw [h2] at h
        unfold deliveryFreeThen at h
        cases h3 : ciStarts "free delivery from store".data t with
        | some r => exact Or.inr (Or.inr rfl)
        | none => rw [h3] at h; cases h

/-- A successful delivery search implies the text has a
case-insensitive `delivery` or `shipping` substring. -/
theorem deliverySearch_contains {tn g : List Char}
    (h : reSearch deliveryMatchAt tn = some g) :
    ciContains "delivery".data tn = true ∨ ciContains "shipping".data tn = true := by
  obtain ⟨p, t', hsuf, hm⟩ := reSearch_some h
  rcases deliveryMatchAt_label hm with h1 | h1 | h1
  · exact Or.inl (findCISub_isSome_of_suffix hsuf h1)
  · exact Or.inr (findCISub_isSome_of_suffix hsuf h1)
  · cases hst : ciStarts "free delivery from store".data t' with
    | none => rw [hst] at h1; cases h1
    | some r =>
      have hdecomp : "free delivery from store".data =
          "free ".data ++ ("delivery".data ++ " from store".data) := rfl
      rw [hdecomp] at hst
      obtain ⟨m, hm1, hm2⟩ := ciStarts_append hst
      obtain ⟨m2, hm21, _⟩ := ciStarts_append hm2
      have hmsuf : m <:+ t' := ciStarts_suffix hm1
      exact Or.inl (findCISub_isSome_of_suffix (hmsuf.trans hsuf)
        (by rw [hm21]; rfl))

theorem discountTailCFrom_label :
    ∀ (k : Nat) {t g : List Char}, discountTailCFrom k t = some g →
      ∃ kp, (ciStarts "discount".data (t.drop kp)).isSome := by
  intro k
  induction k with
  | zero =>
    intro t g h
    rw [discountTailCFrom] at h
    cases hb : (wordCIThen "discount".data (t.drop 0)).bind matchDiscountAmount with
    | some gp =>
      rcases Option.bind_eq_some.mp hb with ⟨r, hw, _⟩
      exact ⟨0, wordCIThen_starts hw⟩
    | none => rw [hb] at h; cases h
  | succ kp ih =>
    intro t g h
    rw [discountTailCFrom] at h
    cases hb : (wordCIThen "discount".data (t.drop (kp + 1))).bind matchDiscountAmount with
    | some gp =>
      rcases Option.bind_eq_some.mp hb with ⟨r, hw, _⟩
      exact ⟨kp + 1, wordCIThen_starts hw⟩
    | none => rw [hb] at h; exact ih h

/-- A successful discount search implies the text has a
case-insensitive `savings` or `discount` substring. -/
theorem discountSearch_contains {tn g : List Char}
    (h : reSearch discountMatchAt tn = some g) :
    ciContains "savings".data tn = true ∨ ciContains "discount".data tn = true := by
  obtain ⟨p, t', hsuf, hm⟩ := reSearch_some h
  unfold discountMatchAt at hm
  split at hm
  · cases ha : discountTailA t' with
    | some g1 =>
      unfold discountTailA at ha
      rcases Option.bind_eq_some.mp ha with ⟨r, hw, _⟩
      exact Or.inl (findCISub_isSome_of_suffix hsuf (wordCIThen_starts hw))
    | none =>
      rw [ha] at hm
      cases hb : discountTailB t' with
      | some g2 =>
        unfold discountTailB at hb
        cases heq : ciStarts "multisave".data t' with
        | none => rw [heq] at hb; cases hb
        | some r1 =>
          rw [heq] at hb
          rcases Option.bind_eq_some.mp hb with ⟨r, hw, _⟩
          exact Or.inr (findCISub_isSome_of_suffix
            (((List.dropWhile_suffix isPySpace).trans (ciStarts_suffix heq)).trans hsuf)
            (wordCIThen_starts hw))
      | none =>
        rw [hb] at hm
        obtain ⟨kp, hk⟩ := discountTailCFrom_label _ hm
        exact Or.inr (findCISub_isSome_of_suffix
          ((List.drop_suffix kp t').trans hsuf) hk)
  · cases hm

/-! ### Generic fold and sorted-set lemmas -/

theorem foldl_append_eq_flatMap {α β : Type} (f : α → List β) :
    ∀ (l : List α) (acc : List β),
      l.foldl (fun out m => out ++ f m) acc = acc ++ l.flatMap f := by
  intro l
  induction l with
  | nil => intro acc; simp
  | cons x xs ih =>
    intro acc
    rw [List.foldl_cons, ih, List.flatMap_cons, List.append_assoc]

theorem pySortedSet_sorted (l : List String) : (pySortedSet l).Sorted (· ≤ ·) :=
  List.sorted_insertionSort _ _

theorem pySortedSet_nodup (l : List String) : (pySortedSet l).Nodup :=
  (List.perm_insertionSort (fun a b => a ≤ b) l.dedup).symm.nodup (List.nodup_dedup l)

theorem mem_pySortedSet {x : String} {l : List String} :
    x ∈ pySortedSet l ↔ x ∈ l :=
  ((List.perm_insertionSort (fun a b => a ≤ b) l.dedup).mem_iff).trans (List.mem_dedup)

/-! ### Order-number matches are digit strings -/

theorem orderMatchesAux_digits :
    ∀ (f : Nat) (t : List Char) (x : String), x ∈ orderMatchesAux f t →
      x.data ≠ [] ∧ x.data.all isAsciiDigit = true := by
  intro f
  induction f with
  | zero => intro t x hx; simp [orderMatchesAux] at hx
  | succ fp ih =>
    intro t x hx
    cases t with
    | nil => simp [orderMatchesAux] at hx
    | cons c rest =>
      rw [orderMatchesAux] at hx
      cases hs : ciStarts "/orders/".data (c :: rest) with
      | none => rw [hs] at hx; exact ih rest x hx
      | some r =>
        rw [hs] at hx
        dsimp only [spanDigits] at hx
        split at hx
        · exact ih rest x hx
        · rcases List.mem_cons.mp hx with rfl | hx2
          · next hne =>
            refine ⟨hne, List.all_eq_true.mpr fun c hc => List.mem_takeWhile_imp hc⟩
          · exact ih _ x hx2

theorem orderMatches_digits {s : String} {x : String} (h : x ∈ orderMatches s) :
    x.data ≠ [] ∧ x.data.all isAsciiDigit = true :=
  orderMatchesAux_digits _ _ x h

theorem extract_fold_digits (subject_exact : Option String) :
    ∀ (items : List MailItem) (acc : List String),
      (∀ x ∈ acc, x.data ≠ [] ∧ x.data.all isAsciiDigit = true) →
      ∀ x ∈ items.foldl (fun acc it =>
          if subjectMatches it subject_exact then
            acc ++ (itemCandStrings it).flatMap fun s => orderMatches s
          else acc) acc,
        x.data ≠ [] ∧ x.data.all isAsciiDigit = true := by
  intro items
  induction items with
  | nil => intro acc hacc x hx; exact hacc x hx
  | cons it items ih =>
    intro acc hacc x hx
    rw [List.foldl_cons] at hx
    refine ih _ ?_ x hx
    intro y hy
    split at hy
    · rcases List.mem_append.mp hy with hy | hy
      · exact hacc y hy
      · obtain ⟨s, _, hys⟩ := List.mem_flatMap.mp hy
        exact orderMatches_digits hys
    · exact hacc y hy

/-! ### Period-match bounds -/

theorem yyyymmMatch_bounds :
    ∀ {l : List Char} {y m : Nat}, yyyymmMatch l = some (y, m) → y ≤ 9999 ∧ m ≤ 99 := by
  intro l y m h
  unfold yyyymmMatch at h
  split at h
  · next y1 y2 y3 y4 ms =>
    split at h
    · next hdig =>
      simp only [Bool.and_eq_true, decide_eq_true_eq, isAsciiDigit] at hdig
      obtain ⟨⟨⟨h1, h2⟩, h3⟩, h4⟩ := hdig
      split at h
      · next m1 =>
        split at h
        · next hm1 =>
          simp only [isAsciiDigit, Bool.and_eq_true, decide_eq_true_eq] at hm1
          cases h
          constructor <;> omega
        · cases h
      · next m1 m2 =>
        split at h
        · next hm12 =>
          simp only [isAsciiDigit, Bool.and_eq_true, decide_eq_true_eq] at hm12
          cases h
          constructor <;> omega
        · cases h
      · cases h
    · cases h
  · cases h

/-! ### The spec's description of the decoder (for the refinement
comparison of C5) -/

/-- Modelled from the spec (§4.1): the original string; its
HTML-unescaped form only if it differs; then up to three successive
rounds of percent-decoding applied to the unescaped form, each
appended only if different from all variants already collected. -/
def specDecodeCandidates (s : String) : List String :=
  let base := if htmlUnescape s ≠ s then [s, htmlUnescape s] else [s]
  ((List.range 3).foldl (fun acc _ =>
      (if unquoteStr acc.2 ∈ acc.1 then acc.1 else acc.1 ++ [unquoteStr acc.2],
        unquoteStr acc.2))
    (base, htmlUnescape s)).1

theorem decode_candidates_spec {s : String} (hs : s ≠ "") :
    _decode_candidates s = specDecodeCandidates s := by
  unfold _decode_candidates specDecodeCandidates
  rw [if_neg hs]
  rw [show List.range 3 = [0, 1, 2] from rfl]
  simp only [List.foldl_cons, List.foldl_nil]
  split_ifs <;> simp_all

/-! ### Claim theorems -/

/-- Claim C1: for every page text, the discount of the OrderSummary
returned by `parse_order_page` is a non-positive finite value; when
the discount regex matches with magnitude group `g`, the discount is
`-|money_to_float g|` (the captured group excludes any minus sign, so
the result is independent of an explicit minus in the text); when no
discount label is present (no match, in particular no `savings` or
`discount` substring), the discount is exactly 0; and on the spec's
examples the discount is -0.76, -0.76, and 0 respectively. -/
theorem claim_C1 :
    (∀ t o u : String, ∃ q : ℚ,
      (parse_order_page t o u).discount = .finite q ∧ q ≤ 0) ∧
    (∀ t o u : String, reSearch discountMatchAt (collapseHT t.data) = none →
      (parse_order_page t o u).discount = .finite 0) ∧
    (∀ t o u : String, ciContains "savings".data (collapseHT t.data) = false →
      ciContains "discount".data (collapseHT t.data) = false →
      (parse_order_page t o u).discount = .finite 0) ∧
    (∀ (t o u : String) (g : List Char),
      reSearch discountMatchAt (collapseHT t.data) = some g →
      (parse_order_page t o u).discount = ((money_to_float (String.mk g)).pyAbs).neg) ∧
    (parse_order_page "Subtotal $75.71 Multisave Discount $0.76 Taxes $5.00 Total $80.71"
      "T1" "u").discount = .finite (-76/100) ∧
    (parse_order_page "Subtotal $75.71 Savings -$0.76 Taxes $5.00 Total $80.71"
      "T2" "u").discount = .finite (-76/100) ∧
    (parse_order_page "Subtotal $75.71 Taxes $5.00 Total $80.71"
      "T3" "u").discount = .finite 0 := by
  refine ⟨?_, ?_, ?_, ?_, ?_, ?_, ?_⟩
  · intro t o u
    exact discountOf_nonpos (collapseHT t.data)
  · intro t o u h
    show discountOf (collapseHT t.data) = .finite 0
    unfold discountOf
    rw [h]
  · intro t o u h1 h2
    show discountOf (collapseHT t.data) = .finite 0
    unfold discountOf
    cases h : reSearch discountMatchAt (collapseHT t.data) with
    | none => rfl
    | some g =>
      rcases discountSearch_contains h with hc | hc
      · rw [h1] at hc; cases hc
      · rw [h2] at hc; cases hc
  · intro t o u g h
    show discountOf (collapseHT t.data) = _
    unfold discountOf
    rw [h]
  · with_unfolding_all rfl
  · with_unfolding_all rfl
  · with_unfolding_all rfl

theorem claim_C1_witness :
    (parse_order_page "Subtotal $75.71 Taxes $5.00 Total $80.71" "T3" "u").discount
        = .finite 0 ∧
    (parse_order_page "Subtotal $75.71 Multisave Discount $0.76 Taxes $5.00 Total $80.71"
        "T1" "u").discount = ((money_to_float "0.76").pyAbs).neg :=
  ⟨claim_C1.2.1 "Subtotal $75.71 Taxes $5.00 Total $80.71" "T3" "u"
      (by with_unfolding_all rfl),
    claim_C1.2.2.2.1 "Subtotal $75.71 Multisave Discount $0.76 Taxes $5.00 Total $80.71"
      "T1" "u" "0.76".data (by with_unfolding_all rfl)⟩

/-- Claim C2: for every page text with no delivery/shipping label (no
case-insensitive `delivery` or `shipping` substring, and in general
whenever the delivery regex has no match), `parse_order_page` returns
delivery exactly 0; when a label plus two-decimal amount is present,
delivery is that amount (5.00 for `Delivery fee $5.00`, 3.50 for
`Shipping $3.50`). -/
theorem claim_C2 :
    (∀ t o u : String, ciContains "delivery".data (collapseHT t.data) = false →
      ciContains "shipping".data (collapseHT t.data) = false →
      (parse_order_page t o u).delivery = .finite 0) ∧
    (∀ t o u : String, reSearch deliveryMatchAt (collapseHT t.data) = none →
      (parse_order_page t o u).delivery = .finite 0) ∧
    (parse_order_page "Subtotal $75.71 Delivery fee $5.00 Taxes $5.00 Total $85.71"
      "T" "u").delivery = .finite 5 ∧
    (parse_order_page "Subtotal $75.71 Shipping $3.50 Taxes $5.00 Total $84.21"
      "T" "u").delivery = .finite (35/10) ∧
    (parse_order_page "Subtotal $75.71 Multisave Discount $0.76 Taxes $5.00 Total $80.71"
      "T" "u").delivery = .finite 0 := by
  refine ⟨?_, ?_, ?_, ?_, ?_⟩
  · intro t o u h1 h2
    show deliveryOf (collapseHT t.data) = .finite 0
    unfold deliveryOf
    cases h : reSearch deliveryMatchAt (collapseHT t.data) with
    | none => rfl
    | some g =>
      rcases deliverySearch_contains h with hc | hc
      · rw [h1] at hc; cases hc
      · rw [h2] at hc; cases hc
  · intro t o u h
    show deliveryOf (collapseHT t.data) = .finite 0
    unfold deliveryOf
    rw [h]
  · with_unfolding_all rfl
  · with_unfolding_all rfl
  · with_unfolding_all rfl

theorem claim_C2_witness :
    (parse_order_page "Subtotal $75.71 Multisave Discount $0.76 Taxes $5.00 Total $80.71"
      "W" "u").delivery = .finite 0 :=
  claim_C2.1 "Subtotal $75.71 Multisave Discount $0.76 Taxes $5.00 Total $80.71" "W" "u"
    (by with_unfolding_all rfl) (by with_unfolding_all rfl)

/-- Claim C3 counterexample: `money_to_float "inf"` follows Python
`float("inf")` and returns positive infinity, which is not a finite
number, refuting "for every input string it returns a finite
number". -/
theorem claim_C3_counterexample :
    (money_to_float "inf").isFinite = false ∧ money_to_float "inf" = .inf true := by
  constructor <;> with_unfolding_all rfl

/-- Claim C3 (amended): `money_to_float` is total; the four listed
equalities hold, and whenever the cleaned remainder fails to parse as
a Python float the result is exactly zero.  (The original "always
finite" is refuted by inputs such as `"inf"`/`"nan"` which Python's
`float()` accepts as non-finite values.) -/
theorem claim_C3 :
    money_to_float "" = .finite 0 ∧
    money_to_float "$1,234.56" = .finite (123456/100) ∧
    money_to_float "(12.34)" = .finite (-1234/100) ∧
    money_to_float "-$5.00" = .finite (-5) ∧
    (∀ v : String, pyFloatParse (moneyCleaned v).2 = none →
      money_to_float v = .finite 0) := by
  refine ⟨by with_unfolding_all rfl, by with_unfolding_all rfl, by with_unfolding_all rfl,
    by with_unfolding_all rfl, ?_⟩
  intro v h
  unfold money_to_float
  split
  · rfl
  · rcases hmc : moneyCleaned v with ⟨neg, c⟩
    rw [hmc] at h
    dsimp only at h
    dsimp only
    rw [h]

theorem claim_C3_witness : money_to_float "abc" = .finite 0 :=
  claim_C3.2.2.2.2 "abc" (by with_unfolding_all rfl)

/-- Claim C4: the end-to-end scenario text parses to subtotal 75.71,
discount -0.76, delivery 0.00, taxes 5.00 and total 80.71; in
particular the `Total` match does not capture the `Subtotal` amount
(the word boundary rejects the embedded `Total` of `Subtotal`). -/
theorem claim_C4 :
    (parse_order_page "Subtotal $75.71 Multisave Discount $0.76 Taxes $5.00 Total $80.71"
      "C4" "u").subtotal = .finite (7571/100) ∧
    (parse_order_page "Subtotal $75.71 Multisave Discount $0.76 Taxes $5.00 Total $80.71"
      "C4" "u").discount = .finite (-76/100) ∧
    (parse_order_page "Subtotal $75.71 Multisave Discount $0.76 Taxes $5.00 Total $80.71"
      "C4" "u").delivery = .finite 0 ∧
    (parse_order_page "Subtotal $75.71 Multisave Discount $0.76 Taxes $5.00 Total $80.71"
      "C4" "u").taxes = .finite 5 ∧
    (parse_order_page "Subtotal $75.71 Multisave Discount $0.76 Taxes $5.00 Total $80.71"
      "C4" "u").total = .finite (8071/100) := by
  refine ⟨?_, ?_, ?_, ?_, ?_⟩ <;> with_unfolding_all rfl

/-- Claim C5 counterexample: on the empty string the decoder returns
the empty list, not a sequence starting with the original string. -/
theorem claim_C5_counterexample :
    _decode_candidates "" = [] ∧ "" ∉ _decode_candidates "" := by
  constructor
  · with_unfolding_all rfl
  · intro h
    rw [show _decode_candidates "" = [] from by with_unfolding_all rfl] at h
    exact List.not_mem_nil "" h

/-- Claim C5 (amended): for every non-empty input the decoder returns
exactly the sequence the spec describes (original; unescaped form if
different; three successive percent-decoding rounds of the unescaped
form, each appended only if new); the empty string returns the empty
sequence instead of `[""]`. -/
theorem claim_C5 :
    ∀ s : String, s ≠ "" → _decode_candidates s = specDecodeCandidates s :=
  fun _ hs => decode_candidates_spec hs

theorem claim_C5_witness :
    _decode_candidates "a%2520b" = specDecodeCandidates "a%2520b" :=
  claim_C5 "a%2520b" (by with_unfolding_all decide)

/-- Claim C6: the safelink unwrapper emits, for each scanned URL,
either the triple-percent-decoded `url` query parameter (when the host
contains the safelink redirector) or the trimmed URL as-is; on the
wrapper embedding the encoded walmart order URL the output is the
fully decoded target verbatim. -/
theorem claim_C6 :
    (∀ s : String, _extract_urls_from_safelinks s = (urlMatches s.data).flatMap emitOne) ∧
    (∀ m : List Char, containsSub safelinkHost (netlocOf (rstripUrl m)) = false →
      emitOne m = [String.mk (rstripUrl m)]) ∧
    (∀ (m target : List Char), containsSub safelinkHost (netlocOf (rstripUrl m)) = true →
      qsGetUrl (queryOf (rstripUrl m)) = some target →
      emitOne m = [String.mk (unquote (unquote (unquote target)))]) ∧
    _extract_urls_from_safelinks
      "Click https://nam12.safelinks.protection.outlook.com/?url=https%3A%2F%2Fwww.walmart.ca%2Fen%2Forders%2F123456&data=05 now"
      = ["https://www.walmart.ca/en/orders/123456"] ∧
    _extract_urls_from_safelinks "see https://www.walmart.ca/en/orders/789). end"
      = ["https://www.walmart.ca/en/orders/789"] := by
  refine ⟨?_, ?_, ?_, ?_, ?_⟩
  · intro s
    unfold _extract_urls_from_safelinks
    split
    · next hs => rw [hs]; with_unfolding_all rfl
    · rw [foldl_append_eq_flatMap emitOne (urlMatches s.data) [], List.nil_append]
  · intro m h
    unfold emitOne
    dsimp only
    simp [h]
  · intro m target h hq
    unfold emitOne
    dsimp only
    simp [h, hq]
  · with_unfolding_all rfl
  · with_unfolding_all rfl

theorem claim_C6_witness :
    emitOne "https://www.walmart.ca/en/orders/555".data
      = ["https://www.walmart.ca/en/orders/555"] :=
  claim_C6.2.1 "https://www.walmart.ca/en/orders/555".data (by with_unfolding_all rfl)

/-- Claim C7: for a fixed item collection and subject filter the
extractor is deterministic (equal on equal inputs), and its result is
sorted, duplicate-free, and consists solely of non-empty all-digit
identifiers. -/
theorem claim_C7 :
    ∀ (items : List MailItem) (subject_exact : Option String),
      extract_order_numbers_from_items items subject_exact =
        extract_order_numbers_from_items items subject_exact ∧
      (extract_order_numbers_from_items items subject_exact).Sorted (· ≤ ·) ∧
      (extract_order_numbers_from_items items subject_exact).Nodup ∧
      ∀ x ∈ extract_order_numbers_from_items items subject_exact,
        x.data ≠ [] ∧ x.data.all isAsciiDigit = true := by
  intro items f
  refine ⟨rfl, pySortedSet_sorted _, pySortedSet_nodup _, ?_⟩
  intro x hx
  exact extract_fold_digits f items []
    (fun y hy => absurd hy (List.not_mem_nil y)) x (mem_pySortedSet.mp hx)

theorem claim_C7_witness :
    ("123456" : String).data ≠ [] ∧ ("123456" : String).data.all isAsciiDigit = true :=
  (claim_C7 [⟨some "Order", some "x /orders/123456 y", none⟩] none).2.2.2 "123456"
    (by with_unfolding_all decide)

/-- Claim C8 counterexample: for `Savings $0.7` the discount pattern
captures only the integer part `0` (it accepts zero or exactly two
decimal digits, not one), so the parsed discount is 0, not -0.7. -/
theorem claim_C8_counterexample :
    (parse_order_page "Subtotal $75.71 Savings $0.7 Taxes $5.00 Total $80.71"
      "T" "u").discount = .finite 0 ∧
    (parse_order_page "Subtotal $75.71 Savings $0.7 Taxes $5.00 Total $80.71"
      "T" "u").discount ≠ .finite (-7/10) := by
  constructor
  · with_unfolding_all rfl
  · with_unfolding_all decide

/-- Claim C8 (amended): the discount label is followed by an optional
minus sign, optional currency symbol, and a numeric value with zero or
exactly two decimal digits; a one-decimal amount is captured only up
to its integer part, so `Savings $0.7` yields discount 0, while
two-decimal and integer amounts are captured in full. -/
theorem claim_C8 :
    (parse_order_page "Subtotal $75.71 Savings $0.7 Taxes $5.00 Total $80.71"
      "T" "u").discount = .finite 0 ∧
    (parse_order_page "Subtotal $10.00 Savings $0.75 Total $9.25"
      "T" "u").discount = .finite (-75/100) ∧
    (parse_order_page "Promo Discount $5 applied Total $20.00"
      "T" "u").discount = .finite (-5) := by
  refine ⟨?_, ?_, ?_⟩ <;> with_unfolding_all rfl

/-- Strict `YYYY-MM` form as the spec words it: exactly four digits, a
dash, and exactly two digits. -/
def isStrictYYYYMM (s : String) : Bool :=
  match s.data with
  | [y1, y2, y3, y4, '-', m1, m2] =>
    isAsciiDigit y1 && isAsciiDigit y2 && isAsciiDigit y3 && isAsciiDigit y4 &&
      isAsciiDigit m1 && isAsciiDigit m2
  | _ => false

/-- Claim C9 counterexample: `"2025-1"` is not in `YYYY-MM` form (the
month has one digit), yet `_parse_period` accepts it (its month group
is `\d{1,2}`) and returns the January 2025 range instead of rejecting
it. -/
theorem claim_C9_counterexample :
    isStrictYYYYMM "2025-1" = false ∧
    _parse_period "2025-1" =
      .ok (some (⟨2025, 1, 1, 0, 0, 0⟩, ⟨2025, 2, 1, 0, 0, 0⟩)) := by
  constructor
  · with_unfolding_all rfl
  · with_unfolding_all rfl

theorem one_le_daysInMonth (y m : Nat) : 1 ≤ daysInMonth y m := by
  unfold daysInMonth
  split_ifs <;> omega

/-- Claim C9 (amended): a stripped period matching four digits, a
dash, and one-or-two digits with month in 1..12 (and a year the
`datetime` constructor accepts) yields the half-open month range, with
December rolling over to January of the next year; a non-matching
string or an out-of-range month yields no range. -/
theorem claim_C9 :
    (∀ p : String, yyyymmMatch (pyStrip p.data) = none → _parse_period p = .ok none) ∧
    (∀ (p : String) (y m : Nat), yyyymmMatch (pyStrip p.data) = some (y, m) →
      (m = 0 ∨ 13 ≤ m) → _parse_period p = .ok none) ∧
    (∀ (p : String) (y m : Nat), yyyymmMatch (pyStrip p.data) = some (y, m) →
      1 ≤ m → m ≤ 12 → 1 ≤ y → (m = 12 → y ≤ 9998) →
      _parse_period p = .ok (some (⟨y, m, 1, 0, 0, 0⟩,
        if m = 12 then ⟨y + 1, 1, 1, 0, 0, 0⟩ else ⟨y, m + 1, 1, 0, 0, 0⟩))) := by
  refine ⟨?_, ?_, ?_⟩
  · intro p h
    unfold _parse_period
    rw [h]
  · intro p y m h hm
    unfold _parse_period
    rw [h]
    have hc : (1 ≤ m && m ≤ 12) = false := by
      simp only [Bool.and_eq_false_iff, decide_eq_false_iff_not]
      omega
    simp [hc]
  · intro p y m h h1 h2 h3 h4
    have hy := (yyyymmMatch_bounds h).1
    unfold _parse_period
    rw [h]
    dsimp only
    have hc : (1 ≤ m && m ≤ 12) = true := by
      simp only [Bool.and_eq_true, decide_eq_true_eq]
      omega
    have hstart : mkDatetime y m 1 = .ok ⟨y, m, 1, 0, 0, 0⟩ := by
      unfold mkDatetime
      rw [if_pos]
      have := one_le_daysInMonth y m
      simp only [Bool.and_eq_true, decide_eq_true_eq]
      omega
    by_cases hm12 : m = 12
    · subst hm12
      have hend : mkDatetime (y + 1) 1 1 = .ok ⟨y + 1, 1, 1, 0, 0, 0⟩ := by
        unfold mkDatetime
        rw [if_pos]
        have := one_le_daysInMonth (y + 1) 1
        have := h4 rfl
        simp only [Bool.and_eq_true, decide_eq_true_eq]
        omega
      simp [hc, hstart, hend]
      rfl
    · have hend : mkDatetime y (m + 1) 1 = .ok ⟨y, m + 1, 1, 0, 0, 0⟩ := by
        unfold mkDatetime
        rw [if_pos]
        have := one_le_daysInMonth y (m + 1)
        simp only [Bool.and_eq_true, decide_eq_true_eq]
        omega
      simp [hc, hstart, hend, hm12]
      rfl

theorem claim_C9_witness :
    _parse_period "2025-12" =
      .ok (some (⟨2025, 12, 1, 0, 0, 0⟩, ⟨2026, 1, 1, 0, 0, 0⟩)) := by
  have h := claim_C9.2.2 "2025-12" 2025 12 (by with_unfolding_all rfl)
    (by omega) (by omega) (by omega) (fun _ => by omega)
  simpa using h

/-- Claim C10: the payment display never renders a brand alone — when
a brand pattern matched but no `Ending in` last-4 was found anywhere,
the display is the literal `N/A`; the `****<last4>` form appears
exactly when a last-4 was found. -/
theorem claim_C10 :
    ∀ t o u : String,
      ((brandOf (collapseHT t.data)).isSome = true →
        last4Of (collapseHT t.data) = none →
        (parse_order_page t o u).payment_last4 = "N/A") ∧
      (∀ d : List Char, last4Of (collapseHT t.data) = some d →
        (parse_order_page t o u).payment_last4 =
          String.mk ('*' :: '*' :: '*' :: '*' :: d)) ∧
      (last4Of (collapseHT t.data) = none →
        (parse_order_page t o u).payment_last4 = "N/A") := by
  intro t o u
  refine ⟨?_, ?_, ?_⟩
  · intro _ hl
    show displayOf (collapseHT t.data) = "N/A"
    unfold displayOf
    cases hb : brandOf (collapseHT t.data) <;> rw [hl]
  · intro d hl
    show displayOf (collapseHT t.data) = _
    unfold displayOf
    cases hb : brandOf (collapseHT t.data) <;> rw [hl]
  · intro hl
    show displayOf (collapseHT t.data) = "N/A"
    unfold displayOf
    cases hb : brandOf (collapseHT t.data) <;> rw [hl]

theorem claim_C10_witness :
    (parse_order_page "Payment method Visa" "T" "u").payment_last4 = "N/A" :=
  (claim_C10 "Payment method Visa" "T" "u").1 (by with_unfolding_all rfl)
    (by with_unfolding_all rfl)

end WalmartImporter
